import Mathlib

/-!
Shallow embedding of `generate_irregular_waves` from
`generate_2d_irregular_ocean_propagating_fields.py`.

Modelling conventions:
* Python/NumPy floats are modelled by `ℝ`.
* A NumPy 2-D array is a `List (List ℝ)` (list of rows), so that shape facts
  are provable rather than forced by the type.
* The global NumPy random source `np.random.rand()` is modelled by an explicit
  stream `rng : ℕ → ℝ` (each value intended in `[0,1)`) together with a cursor
  `off : ℕ`; every call to `rand()` reads the stream at the cursor and advances
  it by one.  The function returns the advanced cursor, mirroring the fact that
  the shared random state is consumed.
* The Python dict `wave_params` is modelled as `ℕ → Option WaveComponent`;
  the default argument `None` becomes `Option` of that type.
* A raised `KeyError` (lookup of a missing index at `time ≠ 0`) is modelled by
  the whole call returning `none`.
-/

open Real

noncomputable section

/-- One entry of the `wave_params` dict: the six scalars stored at line 43-44
of the source. -/
structure WaveComponent where
  amplitude : ℝ
  wavelength : ℝ
  kx : ℝ
  ky : ℝ
  phase : ℝ
  frequency : ℝ

/-- The `wave_params` dict: a partial map from component index to component. -/
def WaveParams : Type := ℕ → Option WaveComponent

/-- The empty dict `{}` (line 31). -/
def emptyParams : WaveParams := fun _ => none

/-- `np.linspace(a, b, n)`: `n` evenly spaced samples from `a` to `b`
(endpoint included); `[a]` when `n = 1`, empty when `n = 0`. -/
def linspace (a b : ℝ) (n : ℕ) : List ℝ :=
  if n = 0 then []
  else if n = 1 then [a]
  else (List.range n).map (fun i : ℕ => a + (b - a) * i / ((n : ℝ) - 1))

/-- First output of `np.meshgrid(xs, ys)`: each row is a copy of `xs`. -/
def meshgridX (xs ys : List ℝ) : List (List ℝ) :=
  ys.map (fun _ => xs)

/-- Second output of `np.meshgrid(xs, ys)`: row `r` is constantly `ys[r]`. -/
def meshgridY (xs ys : List ℝ) : List (List ℝ) :=
  ys.map (fun yv => xs.map (fun _ => yv))

/-- `np.zeros((n, n))` (line 28). -/
def zeros (n : ℕ) : List (List ℝ) :=
  List.replicate n (List.replicate n 0)

/-- Elementwise combination of two 2-D arrays (NumPy broadcasting of a binary
operation over arrays of equal shape). -/
def map2D2 (f : ℝ → ℝ → ℝ) (A B : List (List ℝ)) : List (List ℝ) :=
  (A.zip B).map (fun p => (p.1.zip p.2).map (fun q => f q.1 q.2))

/-- The scalar summand of line 55 at one grid point:
`amplitude * np.sin(kx*x + ky*y - frequency*time + phase)`. -/
def sinTerm (c : WaveComponent) (time xv yv : ℝ) : ℝ :=
  c.amplitude * Real.sin (c.kx * xv + c.ky * yv - c.frequency * time + c.phase)

/-- Line 55, `eta += amplitude * np.sin(kx * x + ky * y - frequency * time + phase)`:
elementwise over the meshgrid arrays `X`, `Y`, accumulated into `eta`. -/
def addSine (eta X Y : List (List ℝ)) (c : WaveComponent) (time : ℝ) :
    List (List ℝ) :=
  map2D2 (fun a b => a + b) eta (map2D2 (sinTerm c time) X Y)

/-- Lines 36-44: the component drawn at `time = 0` from five consecutive calls
to `np.random.rand()`, read from the stream at cursor `off`. -/
def genComponent (length_scale speed : ℝ) (rng : ℕ → ℝ) (off : ℕ) :
    WaveComponent :=
  let amplitude := rng off / 10
  let wavelength := rng (off + 1) * length_scale
  let kx := 2 * π / wavelength * (2 * rng (off + 2) - 1)
  let ky := 2 * π / wavelength * (2 * rng (off + 3) - 1)
  let phase := 2 * π * rng (off + 4)
  let frequency := speed / (2 * π) * Real.sqrt (kx ^ 2 + ky ^ 2)
  ⟨amplitude, wavelength, kx, ky, phase, frequency⟩

/-- One iteration of the `for i in range(num_waves)` loop (lines 33-55),
acting on the state `(eta, wave_params, rng cursor)`.  At `time = 0` fresh
parameters are drawn and stored at index `i`; otherwise the entry at `i` is
looked up, a missing entry raising `KeyError` (modelled as `none`). -/
def step (X Y : List (List ℝ)) (length_scale time speed : ℝ) (rng : ℕ → ℝ)
    (st : List (List ℝ) × WaveParams × ℕ) (i : ℕ) :
    Option (List (List ℝ) × WaveParams × ℕ) :=
  if time = 0 then
    let c := genComponent length_scale speed rng st.2.2
    some (addSine st.1 X Y c time, Function.update st.2.1 i (some c), st.2.2 + 5)
  else
    match st.2.1 i with
    | none => none
    | some c => some (addSine st.1 X Y c time, st.2.1, st.2.2)

/-- Lines 22-57: `generate_irregular_waves`.  Returns the height field, the
(possibly just populated) parameter dict and the advanced RNG cursor, or
`none` when a dict lookup raises. -/
def generate_irregular_waves (grid_size num_waves : ℕ)
    (length_scale time speed : ℝ) (wave_params : Option WaveParams)
    (rng : ℕ → ℝ) (off : ℕ) : Option (List (List ℝ) × WaveParams × ℕ) :=
  let x := linspace 0 (2 * π) grid_size
  let y := linspace 0 (2 * π) grid_size
  let X := meshgridX x y
  let Y := meshgridY x y
  let eta := zeros grid_size
  let params := wave_params.getD emptyParams
  (List.range num_waves).foldlM (step X Y length_scale time speed rng)
    (eta, params, off)

/-- The 2-D array whose entry at row `r`, column `c` is `F xs[c] ys[r]`:
normal form for every intermediate value of `eta` in the loop. -/
def gridOf (xs ys : List ℝ) (F : ℝ → ℝ → ℝ) : List (List ℝ) :=
  ys.map (fun yv => xs.map (fun xv => F xv yv))

/-!
IEEE-double view of the `time = 0` generation branch.  The real-valued model
above makes division total (`x / 0 = 0`), so it cannot express what NumPy
floats do on the unguarded division `2 * np.pi / wavelength` when the sampled
`wavelength` is exactly `0.0`: the result is `inf`, and `inf`/`nan` then
propagate through every later operation.  `Fl` is ℝ extended with `pinf`,
`ninf` and `nan`, with the IEEE-754 rules for the operations the branch uses
(one zero, `+0`, suffices: the only zero the path divides by is
`0.0 * length_scale`).
-/

namespace Fl

end Fl

/-- Concrete inputs used by witnesses and counterexamples. -/
def zeroStream : ℕ → ℝ := fun _ => 0

/-- A random stream keeping every drawn quantity finite (so the real-valued
model and IEEE doubles agree on it exactly).  First component (draws 0-4):
amplitude `1/20`, wavelength `1/2`, direction factors `2·(1/2) − 1 = 0` (so
`kx = ky = 0` and `frequency = 0`), phase `2π·(1/4) = π/2`.  Second component
(draws 5-9): amplitude `0`, wavelength `1/2`, direction factors `0`,
phase `0`. -/
def rngC : ℕ → ℝ := fun k =>
  if k = 4 then 1 / 4
  else if k = 5 then 0
  else if k = 9 then 0
  else if k < 10 then 1 / 2
  else 0

/-- A component with amplitude `0`: its contribution to the field vanishes. -/
def cOne : WaveComponent := ⟨0, 1, 0, 0, 0, 0⟩

/-- A dict populated at every index with `cOne`. -/
def pOne : WaveParams := fun _ => some cOne

/-- The single manual component of the superposition test:
`{amplitude=1, kx=1, ky=0, phase=0, frequency=0}` (wavelength `1`). -/
def cSin : WaveComponent := ⟨1, 1, 1, 0, 0, 0⟩

/-- The dict `{0: cSin}`. -/
def pSin : WaveParams := fun j => if j = 0 then some cSin else none

/-- The field returned at `t = 1` for one `cOne` component on a 1×1 grid. -/
def etaOne : List (List ℝ) :=
  gridOf (linspace 0 (2 * π) 1) (linspace 0 (2 * π) 1)
    (fun x y => 0 + ∑ i ∈ Finset.range 1, sinTerm cOne 1 x y)

/-- The dict produced by a `time = 0` call with `num_waves = 1` from the
all-zero stream starting on empty input. -/
def pZ : WaveParams :=
  fun j => if j < 1 then some (genComponent 1 1 zeroStream (0 + 5 * j))
           else emptyParams j

/-- The component drawn from the all-zero stream. -/
def cZ : WaveComponent := genComponent 1 1 zeroStream 0

/-- The field produced by that `time = 0` call. -/
def etaZ : List (List ℝ) :=
  gridOf (linspace 0 (2 * π) 1) (linspace 0 (2 * π) 1)
    (fun x y => 0 + ∑ i ∈ Finset.range 1,
      sinTerm (genComponent 1 1 zeroStream (0 + 5 * i)) 0 x y)

/-- The dict produced by a `time = 0` call with `num_waves = 1` from `rngC`
at cursor `0`, starting from `pSin`. -/
def pC1 : WaveParams :=
  fun j => if j < 1 then some (genComponent 1 1 rngC (0 + 5 * j)) else pSin j

/-- Same from `rngC` at cursor `5` (the state a second call sees). -/
def pC2 : WaveParams :=
  fun j => if j < 1 then some (genComponent 1 1 rngC (5 + 5 * j)) else pSin j

instance : Inhabited WaveComponent := ⟨⟨0, 0, 0, 0, 0, 0⟩⟩

lemma linspace_length (a b : ℝ) (n : ℕ) : (linspace a b n).length = n := by
  unfold linspace
  by_cases h0 : n = 0
  · simp [h0]
  · by_cases h1 : n = 1
    · simp [h0, h1]
    · rw [if_neg h0, if_neg h1, List.length_map, List.length_range]

lemma pure_eq_some {α : Type} (x : α) : (pure x : Option α) = some x := rfl

lemma gridOf_length (xs ys : List ℝ) (F : ℝ → ℝ → ℝ) :
    (gridOf xs ys F).length = ys.length := by
  simp [gridOf]

lemma gridOf_row_length (xs ys : List ℝ) (F : ℝ → ℝ → ℝ) :
    ∀ row ∈ gridOf xs ys F, row.length = xs.length := by
  intro row hrow
  simp only [gridOf, List.mem_map] at hrow
  obtain ⟨yv, _, rfl⟩ := hrow
  simp

lemma gridOf_congr (xs ys : List ℝ) {F G : ℝ → ℝ → ℝ}
    (h : ∀ x y, F x y = G x y) : gridOf xs ys F = gridOf xs ys G := by
  unfold gridOf
  refine List.map_congr_left (fun yv _ => ?_)
  exact List.map_congr_left (fun xv _ => h xv yv)

lemma gridOf_get (xs ys : List ℝ) (F : ℝ → ℝ → ℝ) (r c : ℕ)
    (hr : r < ys.length) (hc : c < xs.length) :
    ((gridOf xs ys F).get ⟨r, by simpa [gridOf_length] using hr⟩).get
        ⟨c, by
          simpa [gridOf] using hc⟩ = F (xs.get ⟨c, hc⟩) (ys.get ⟨r, hr⟩) := by
  simp [gridOf]

lemma map2D2_gridOf (f : ℝ → ℝ → ℝ) (xs ys : List ℝ) (F G : ℝ → ℝ → ℝ) :
    map2D2 f (gridOf xs ys F) (gridOf xs ys G)
      = gridOf xs ys (fun x y => f (F x y) (G x y)) := by
  simp only [map2D2, gridOf, List.zip_map', List.map_map, Function.comp_def]

lemma meshgridX_eq (xs ys : List ℝ) :
    meshgridX xs ys = gridOf xs ys (fun xv _ => xv) := by
  simp [meshgridX, gridOf]

lemma meshgridY_eq (xs ys : List ℝ) :
    meshgridY xs ys = gridOf xs ys (fun _ yv => yv) := by
  simp [meshgridY, gridOf]

lemma zeros_eq_gridOf (n : ℕ) (xs ys : List ℝ)
    (hx : xs.length = n) (hy : ys.length = n) :
    zeros n = gridOf xs ys (fun _ _ => 0) := by
  unfold zeros gridOf
  rw [List.map_const' ys, hy]
  congr 1
  rw [List.map_const' xs, hx]

lemma addSine_gridOf (xs ys : List ℝ) (E : ℝ → ℝ → ℝ) (c : WaveComponent)
    (t : ℝ) :
    addSine (gridOf xs ys E) (meshgridX xs ys) (meshgridY xs ys) c t
      = gridOf xs ys (fun x y => E x y + sinTerm c t x y) := by
  rw [addSine, meshgridX_eq, meshgridY_eq, map2D2_gridOf, map2D2_gridOf]

lemma step_nonzero (xs ys : List ℝ) (ls t sp : ℝ) (rng : ℕ → ℝ)
    (E : ℝ → ℝ → ℝ) (p : WaveParams) (off i : ℕ) (c : WaveComponent)
    (ht : t ≠ 0) (hp : p i = some c) :
    step (meshgridX xs ys) (meshgridY xs ys) ls t sp rng
        (gridOf xs ys E, p, off) i
      = some (gridOf xs ys (fun x y => E x y + sinTerm c t x y), p, off) := by
  unfold step
  rw [if_neg ht]
  simp only [hp, addSine_gridOf]

lemma step_zero (xs ys : List ℝ) (ls sp : ℝ) (rng : ℕ → ℝ)
    (E : ℝ → ℝ → ℝ) (p : WaveParams) (off i : ℕ) :
    step (meshgridX xs ys) (meshgridY xs ys) ls 0 sp rng
        (gridOf xs ys E, p, off) i
      = some (gridOf xs ys
            (fun x y => E x y + sinTerm (genComponent ls sp rng off) 0 x y),
          Function.update p i (some (genComponent ls sp rng off)), off + 5) := by
  unfold step
  rw [if_pos rfl]
  simp only [addSine_gridOf]

lemma fold_nonzero (xs ys : List ℝ) (ls t sp : ℝ) (rng : ℕ → ℝ)
    (ht : t ≠ 0) (p : WaveParams) (cs : ℕ → WaveComponent)
    (E : ℝ → ℝ → ℝ) (off : ℕ) (n : ℕ)
    (hp : ∀ i, i < n → p i = some (cs i)) :
    (List.range n).foldlM
        (step (meshgridX xs ys) (meshgridY xs ys) ls t sp rng)
        (gridOf xs ys E, p, off)
      = some (gridOf xs ys
            (fun x y => E x y + ∑ i ∈ Finset.range n, sinTerm (cs i) t x y),
          p, off) := by
  induction n with
  | zero =>
    simp only [List.range_zero, List.foldlM_nil, Finset.range_zero,
      Finset.sum_empty, add_zero]
    rfl
  | succ n ih =>
    have hstep := step_nonzero xs ys ls t sp rng
      (fun x y => E x y + ∑ i ∈ Finset.range n, sinTerm (cs i) t x y)
      p off n (cs n) ht (hp n (Nat.lt_succ_self n))
    rw [List.range_succ, List.foldlM_append,
      ih (fun i hi => hp i (Nat.lt_succ_of_lt hi))]
    simp only [Option.bind_eq_bind, Option.some_bind, List.foldlM_cons,
      List.foldlM_nil, hstep, Option.bind_some]
    have hE : gridOf xs ys
        (fun x y => (E x y + ∑ i ∈ Finset.range n, sinTerm (cs i) t x y)
          + sinTerm (cs n) t x y)
      = gridOf xs ys
        (fun x y => E x y + ∑ i ∈ Finset.range (n + 1), sinTerm (cs i) t x y) :=
      gridOf_congr xs ys (fun x y => by rw [Finset.sum_range_succ, add_assoc])
    rw [hE, pure_eq_some]

lemma fold_zero (xs ys : List ℝ) (ls sp : ℝ) (rng : ℕ → ℝ)
    (p : WaveParams) (E : ℝ → ℝ → ℝ) (off : ℕ) (n : ℕ) :
    (List.range n).foldlM
        (step (meshgridX xs ys) (meshgridY xs ys) ls 0 sp rng)
        (gridOf xs ys E, p, off)
      = some (gridOf xs ys
            (fun x y => E x y + ∑ i ∈ Finset.range n,
              sinTerm (genComponent ls sp rng (off + 5 * i)) 0 x y),
          fun j => if j < n then some (genComponent ls sp rng (off + 5 * j))
                   else p j,
          off + 5 * n) := by
  induction n with
  | zero =>
    simp only [List.range_zero, List.foldlM_nil, Finset.range_zero,
      Finset.sum_empty, add_zero, Nat.mul_zero, Nat.add_zero]
    refine congrArg some (Prod.ext rfl (Prod.ext ?_ rfl))
    funext j
    simp
  | succ n ih =>
    have hstep := step_zero xs ys ls sp rng
      (fun x y => E x y + ∑ i ∈ Finset.range n,
        sinTerm (genComponent ls sp rng (off + 5 * i)) 0 x y)
      (fun j => if j < n then some (genComponent ls sp rng (off + 5 * j))
                else p j)
      (off + 5 * n) n
    rw [List.range_succ, List.foldlM_append, ih]
    simp only [Option.bind_eq_bind, Option.some_bind, List.foldlM_cons,
      List.foldlM_nil, hstep, Option.bind_some]
    have hE : gridOf xs ys
        (fun x y => (E x y + ∑ i ∈ Finset.range n,
            sinTerm (genComponent ls sp rng (off + 5 * i)) 0 x y)
          + sinTerm (genComponent ls sp rng (off + 5 * n)) 0 x y)
      = gridOf xs ys
        (fun x y => E x y + ∑ i ∈ Finset.range (n + 1),
            sinTerm (genComponent ls sp rng (off + 5 * i)) 0 x y) :=
      gridOf_congr xs ys (fun x y => by rw [Finset.sum_range_succ, add_assoc])
    have hP : Function.update
        (fun j => if j < n then some (genComponent ls sp rng (off + 5 * j))
                  else p j)
        n (some (genComponent ls sp rng (off + 5 * n)))
      = fun j => if j < n + 1 then some (genComponent ls sp rng (off + 5 * j))
                 else p j := by
      funext j
      rw [Function.update_apply]
      by_cases hj : j = n
      · simp [hj]
      · have hiff : (j < n + 1) ↔ (j < n) := by omega
        simp [hj, hiff]
    have hO : off + 5 * n + 5 = off + 5 * (n + 1) := by ring
    rw [hE, hP, hO, pure_eq_some]

lemma fold_nonzero_inv (xs ys : List ℝ) (ls t sp : ℝ) (rng : ℕ → ℝ)
    (ht : t ≠ 0) :
    ∀ (l : List ℕ) (E : ℝ → ℝ → ℝ) (p : WaveParams) (off : ℕ)
      (st : List (List ℝ) × WaveParams × ℕ),
      l.foldlM (step (meshgridX xs ys) (meshgridY xs ys) ls t sp rng)
          (gridOf xs ys E, p, off) = some st →
      ∃ E', st = (gridOf xs ys E', p, off) := by
  intro l
  induction l with
  | nil =>
    intro E p off st h
    simp only [List.foldlM_nil] at h
    exact ⟨E, by simpa using h.symm⟩
  | cons i l ih =>
    intro E p off st h
    simp only [List.foldlM_cons] at h
    cases hp : p i with
    | none =>
      rw [show step (meshgridX xs ys) (meshgridY xs ys) ls t sp rng
            (gridOf xs ys E, p, off) i = none by
          unfold step; rw [if_neg ht]; simp [hp]] at h
      simp at h
    | some c =>
      rw [step_nonzero xs ys ls t sp rng E p off i c ht hp] at h
      simp only [Option.bind_eq_bind, Option.some_bind] at h
      exact ih _ p off st h

lemma generate_eq (gs n : ℕ) (ls t sp : ℝ) (wp : Option WaveParams)
    (rng : ℕ → ℝ) (off : ℕ) :
    generate_irregular_waves gs n ls t sp wp rng off
      = (List.range n).foldlM
          (step (meshgridX (linspace 0 (2 * π) gs) (linspace 0 (2 * π) gs))
            (meshgridY (linspace 0 (2 * π) gs) (linspace 0 (2 * π) gs))
            ls t sp rng)
          (gridOf (linspace 0 (2 * π) gs) (linspace 0 (2 * π) gs)
            (fun _ _ => 0), wp.getD emptyParams, off) := by
  simp only [generate_irregular_waves]
  rw [zeros_eq_gridOf gs (linspace 0 (2 * π) gs) (linspace 0 (2 * π) gs)
    (linspace_length 0 (2 * π) gs) (linspace_length 0 (2 * π) gs)]

lemma fold_missing (xs ys : List ℝ) (ls t sp : ℝ) (rng : ℕ → ℝ)
    (ht : t ≠ 0) (p : WaveParams) (E : ℝ → ℝ → ℝ) (off : ℕ) (n : ℕ)
    (hmiss : ∃ j, j < n ∧ p j = none) :
    (List.range n).foldlM
        (step (meshgridX xs ys) (meshgridY xs ys) ls t sp rng)
        (gridOf xs ys E, p, off) = none := by
  induction n with
  | zero => obtain ⟨j, hj, _⟩ := hmiss; omega
  | succ n ih =>
    obtain ⟨j, hj, hnone⟩ := hmiss
    rw [List.range_succ, List.foldlM_append]
    by_cases hall : ∃ j', j' < n ∧ p j' = none
    · rw [ih hall]
      rfl
    · push_neg at hall
      have hjn : j = n := by
        by_contra hne
        exact hall j (by omega) hnone
      have hnone' : p n = none := hjn ▸ hnone
      have hcs : ∀ i, i < n → p i = some ((p i).iget) := by
        intro i hi
        cases hpi : p i with
        | none => exact absurd hpi (hall i hi)
        | some c => rfl
      rw [fold_nonzero xs ys ls t sp rng ht p (fun i => (p i).iget) E off n hcs]
      simp only [Option.bind_eq_bind, Option.some_bind, List.foldlM_cons]
      unfold step
      rw [if_neg ht]
      simp [hnone']

lemma linspace_one (a b : ℝ) : linspace a b 1 = [a] := by
  simp [linspace]

lemma gridOf_single (F : ℝ → ℝ → ℝ) : gridOf [0] [0] F = [[F 0 0]] := by
  simp [gridOf]

lemma gen_nonzero_eval :
    generate_irregular_waves 1 1 1 1 1 (some pOne) zeroStream 0
      = some (etaOne, pOne, 0) := by
  rw [generate_eq]
  exact fold_nonzero (linspace 0 (2 * π) 1) (linspace 0 (2 * π) 1) 1 1 1
    zeroStream one_ne_zero pOne (fun _ => cOne) (fun _ _ => 0) 0 1
    (fun i _ => rfl)

lemma gen_zero_eval :
    generate_irregular_waves 1 1 1 0 1 none zeroStream 0
      = some (etaZ, pZ, 5) := by
  rw [generate_eq]
  exact fold_zero (linspace 0 (2 * π) 1) (linspace 0 (2 * π) 1) 1 1
    zeroStream emptyParams (fun _ _ => 0) 0 1

lemma genComponent_frequency (ls sp : ℝ) (rng : ℕ → ℝ) (off : ℕ) :
    (genComponent ls sp rng off).frequency
      = sp / (2 * π) * Real.sqrt ((genComponent ls sp rng off).kx ^ 2
          + (genComponent ls sp rng off).ky ^ 2) := rfl

lemma rngC_term_first : sinTerm (genComponent 1 1 rngC 0) 0 0 0 = 1 / 20 := by
  have h0 : rngC 0 = 1 / 2 := rfl
  have h1 : rngC 1 = 1 / 2 := rfl
  have h2 : rngC 2 = 1 / 2 := rfl
  have h3 : rngC 3 = 1 / 2 := rfl
  have h4 : rngC 4 = 1 / 4 := rfl
  have harg : 2 * π * (1 / 4) = π / 2 := by ring
  simp only [sinTerm, genComponent, h0, h1, h2, h3, h4]
  norm_num [harg, Real.sin_pi_div_two, Real.sqrt_zero]

lemma rngC_term_second : sinTerm (genComponent 1 1 rngC 5) 0 0 0 = 0 := by
  have h5 : rngC 5 = 0 := rfl
  simp only [sinTerm, genComponent, h5]
  norm_num

lemma gen_zero_rngC_first :
    generate_irregular_waves 1 1 1 0 1 (some pSin) rngC 0
      = some ([[(1 : ℝ) / 20]], pC1, 5) := by
  rw [generate_eq,
    show (some pSin).getD emptyParams = pSin from rfl,
    fold_zero (linspace 0 (2 * π) 1) (linspace 0 (2 * π) 1) 1 1 rngC pSin
      (fun _ _ => 0) 0 1]
  have hfield : gridOf (linspace 0 (2 * π) 1) (linspace 0 (2 * π) 1)
      (fun x y => 0 + ∑ i ∈ Finset.range 1,
        sinTerm (genComponent 1 1 rngC (0 + 5 * i)) 0 x y)
      = [[(1 : ℝ) / 20]] := by
    rw [linspace_one, gridOf_single]
    simp only [Finset.sum_range_one, Nat.mul_zero, Nat.add_zero, zero_add]
    rw [rngC_term_first]
  rw [hfield]
  rfl

lemma gen_zero_rngC_second :
    generate_irregular_waves 1 1 1 0 1 (some pSin) rngC 5
      = some ([[(0 : ℝ)]], pC2, 10) := by
  rw [generate_eq,
    show (some pSin).getD emptyParams = pSin from rfl,
    fold_zero (linspace 0 (2 * π) 1) (linspace 0 (2 * π) 1) 1 1 rngC pSin
      (fun _ _ => 0) 5 1]
  have hfield : gridOf (linspace 0 (2 * π) 1) (linspace 0 (2 * π) 1)
      (fun x y => 0 + ∑ i ∈ Finset.range 1,
        sinTerm (genComponent 1 1 rngC (5 + 5 * i)) 0 x y)
      = [[(0 : ℝ)]] := by
    rw [linspace_one, gridOf_single]
    simp only [Finset.sum_range_one, Nat.mul_zero, Nat.add_zero, zero_add]
    rw [rngC_term_second]
  rw [hfield]
  rfl

/-- Claim C1: for every call with `time ≠ 0` and a `wave_params` mapping with
an entry for every index `0..num_waves-1`, the returned height field equals
the pointwise sum over components of
`amplitude·sin(kx·x + ky·y − frequency·time + phase)` on the 2-D mesh of two
linearly spaced sequences of length `grid_size` from `0` to `2π`, starting
from an all-zeros accumulator. -/
theorem C1_height_field_sum (grid_size num_waves : ℕ)
    (length_scale time speed : ℝ) (p : WaveParams) (cs : ℕ → WaveComponent)
    (rng : ℕ → ℝ) (off : ℕ) (ht : time ≠ 0)
    (hp : ∀ i, i < num_waves → p i = some (cs i)) :
    generate_irregular_waves grid_size num_waves length_scale time speed
        (some p) rng off
      = some (gridOf (linspace 0 (2 * π) grid_size)
            (linspace 0 (2 * π) grid_size)
            (fun xv yv => ∑ i ∈ Finset.range num_waves,
              (cs i).amplitude * Real.sin ((cs i).kx * xv + (cs i).ky * yv
                - (cs i).frequency * time + (cs i).phase)),
          p, off) := by
  rw [generate_eq, show (some p).getD emptyParams = p from rfl,
    fold_nonzero (linspace 0 (2 * π) grid_size)
      (linspace 0 (2 * π) grid_size) length_scale time speed rng ht p cs
      (fun _ _ => 0) off num_waves hp]
  have hE : gridOf (linspace 0 (2 * π) grid_size)
      (linspace 0 (2 * π) grid_size)
      (fun x y => 0 + ∑ i ∈ Finset.range num_waves, sinTerm (cs i) time x y)
    = gridOf (linspace 0 (2 * π) grid_size) (linspace 0 (2 * π) grid_size)
      (fun xv yv => ∑ i ∈ Finset.range num_waves,
        (cs i).amplitude * Real.sin ((cs i).kx * xv + (cs i).ky * yv
          - (cs i).frequency * time + (cs i).phase)) :=
    gridOf_congr _ _ (fun x y => by rw [zero_add]; rfl)
  rw [hE]

/-- Witness for C1 at `grid_size = num_waves = 1`, `time = 1`, a dict filled
with the zero-amplitude component `cOne`. -/
theorem C1_height_field_sum_witness :
    generate_irregular_waves 1 1 1 1 1 (some pOne) zeroStream 0
      = some (gridOf (linspace 0 (2 * π) 1) (linspace 0 (2 * π) 1)
            (fun xv yv => ∑ i ∈ Finset.range 1,
              cOne.amplitude * Real.sin (cOne.kx * xv + cOne.ky * yv
                - cOne.frequency * 1 + cOne.phase)),
          pOne, 0) :=
  C1_height_field_sum 1 1 1 1 1 pOne (fun _ => cOne) zeroStream 0
    one_ne_zero (fun i _ => rfl)

/-- Claim C2 (amended): for every `t ≠ 0`, a call with an already-populated
`wave_params` returns the dict and the RNG cursor unchanged, so repeating the
call — even through the shared random source — yields the bit-identical
height field.  (As stated, with `t = 0` included, the claim is false: see the
counterexample.) -/
theorem C2_determinism_nonzero_time (gs n : ℕ) (ls t sp : ℝ) (p : WaveParams)
    (rng : ℕ → ℝ) (off : ℕ) (eta : List (List ℝ)) (p2 : WaveParams)
    (off2 : ℕ) (ht : t ≠ 0)
    (h1 : generate_irregular_waves gs n ls t sp (some p) rng off
      = some (eta, p2, off2)) :
    p2 = p ∧ off2 = off ∧
    generate_irregular_waves gs n ls t sp (some p2) rng off2
      = some (eta, p2, off2) := by
  have h1' := h1
  rw [generate_eq] at h1'
  obtain ⟨E', hst⟩ := fold_nonzero_inv (linspace 0 (2 * π) gs)
    (linspace 0 (2 * π) gs) ls t sp rng ht (List.range n) (fun _ _ => 0)
    p off _ h1'
  simp only [Prod.mk.injEq] at hst
  obtain ⟨hE, hp2, hoff⟩ := hst
  subst hp2
  subst hoff
  exact ⟨rfl, rfl, h1⟩

/-- Witness for C2 at `t = 1` with the fully populated dict `pOne`. -/
theorem C2_determinism_nonzero_time_witness :
    generate_irregular_waves 1 1 1 1 1 (some pOne) zeroStream 0
      = some (etaOne, pOne, 0) :=
  (C2_determinism_nonzero_time 1 1 1 1 1 pOne zeroStream 0 etaOne pOne 0
    one_ne_zero gen_nonzero_eval).2.2

/-- Counterexample to C2 as stated (`t = 0` included): with the populated
dict `pSin` and the random stream `rngC` — every drawn quantity finite, so
double and real arithmetic agree exactly — the first call consumes five
draws (cursor `0 ↦ 5`) and returns the field `[[1/20]]`; the second call
with the same arguments, seeing the advanced shared random state, draws
amplitude `0` and returns `[[0]]` — not bit-identical. -/
theorem C2_counterexample_time_zero :
    generate_irregular_waves 1 1 1 0 1 (some pSin) rngC 0
        = some ([[(1 : ℝ) / 20]], pC1, 5) ∧
    generate_irregular_waves 1 1 1 0 1 (some pSin) rngC 5
        = some ([[(0 : ℝ)]], pC2, 10) ∧
    ([[(1 : ℝ) / 20]] : List (List ℝ)) ≠ [[(0 : ℝ)]] := by
  refine ⟨gen_zero_rngC_first, gen_zero_rngC_second, ?_⟩
  simp only [ne_eq, List.cons.injEq, and_true]
  norm_num

/-- Claim C4: every component generated at `time = 0` satisfies the linear
dispersion relation `frequency = (speed / (2π)) · sqrt(kx² + ky²)` (exactly,
in the real-valued model). -/
theorem C4_dispersion_relation (gs n : ℕ) (ls sp : ℝ)
    (wp : Option WaveParams) (rng : ℕ → ℝ) (off : ℕ) (eta : List (List ℝ))
    (p : WaveParams) (off2 : ℕ)
    (h : generate_irregular_waves gs n ls 0 sp wp rng off
      = some (eta, p, off2)) :
    ∀ i c, i < n → p i = some c →
      c.frequency = sp / (2 * π) * Real.sqrt (c.kx ^ 2 + c.ky ^ 2) := by
  rw [generate_eq, fold_zero] at h
  simp only [Option.some.injEq, Prod.mk.injEq] at h
  obtain ⟨-, hp, -⟩ := h
  intro i c hi hc
  rw [← hp] at hc
  simp only [if_pos hi] at hc
  have hcgen : c = genComponent ls sp rng (off + 5 * i) :=
    (Option.some.inj hc).symm
  subst hcgen
  exact genComponent_frequency ls sp rng (off + 5 * i)

/-- Witness for C4 on the component drawn from the all-zero stream. -/
theorem C4_dispersion_relation_witness :
    cZ.frequency = 1 / (2 * π) * Real.sqrt (cZ.kx ^ 2 + cZ.ky ^ 2) :=
  C4_dispersion_relation 1 1 1 1 none zeroStream 0 etaZ pZ 5 gen_zero_eval
    0 cZ one_pos rfl

/-- Claim C5: with `time ≠ 0`, if the supplied `wave_params` is absent/empty
or lacks an entry for some index below `num_waves`, the call fails with the
lookup error (modelled as `none`) instead of returning a field. -/
theorem C5_missing_params_error (gs n : ℕ) (ls t sp : ℝ)
    (wp : Option WaveParams) (rng : ℕ → ℝ) (off : ℕ) (ht : t ≠ 0)
    (hmiss : ∃ j, j < n ∧ (wp.getD emptyParams) j = none) :
    generate_irregular_waves gs n ls t sp wp rng off = none := by
  rw [generate_eq]
  exact fold_missing (linspace 0 (2 * π) gs) (linspace 0 (2 * π) gs)
    ls t sp rng ht (wp.getD emptyParams) (fun _ _ => 0) off n hmiss

/-- Witness for C5: `time = 5.0` with absent `wave_params` raises. -/
theorem C5_missing_params_error_witness :
    generate_irregular_waves 1 1 1 5 1 none zeroStream 0 = none :=
  C5_missing_params_error 1 1 1 5 1 none zeroStream 0 (by norm_num)
    ⟨0, one_pos, rfl⟩

/-- Claim C6: at `time ≠ 0` the returned parameter mapping is the input
mapping itself — no entry's amplitude, wavelength, kx, ky, phase or
frequency is modified — so the values established at `t = 0` persist across
any sequence of non-zero-time calls. -/
theorem C6_parameter_stability (gs n : ℕ) (ls t sp : ℝ) (p : WaveParams)
    (rng : ℕ → ℝ) (off : ℕ) (eta : List (List ℝ)) (p2 : WaveParams)
    (off2 : ℕ) (ht : t ≠ 0)
    (h : generate_irregular_waves gs n ls t sp (some p) rng off
      = some (eta, p2, off2)) :
    p2 = p := by
  rw [generate_eq] at h
  obtain ⟨E', hst⟩ := fold_nonzero_inv (linspace 0 (2 * π) gs)
    (linspace 0 (2 * π) gs) ls t sp rng ht (List.range n) (fun _ _ => 0)
    p off _ h
  simp only [Prod.mk.injEq] at hst
  exact hst.2.1

/-- Witness for C6 at `t = 1` with the populated dict `pOne`. -/
theorem C6_parameter_stability_witness : pOne = pOne :=
  C6_parameter_stability 1 1 1 1 1 pOne zeroStream 0 etaOne pOne 0
    one_ne_zero gen_nonzero_eval

/-- Claim C7 (amended): with `num_waves = 1` and the manual dict
`{0: {amplitude=1, kx=1, ky=0, phase=0, frequency=0}}`, the field returned at
any `time ≠ 0` is `sin(x)` broadcast over all rows — each entry depends only
on its x coordinate.  (As stated, "at any time" fails at `time = 0`, where
the branch regenerates random parameters; see the counterexample.) -/
theorem C7_superposition_single_wave (gs : ℕ) (ls t sp wl : ℝ)
    (p : WaveParams) (rng : ℕ → ℝ) (off : ℕ) (ht : t ≠ 0)
    (hp : p 0 = some ⟨1, wl, 1, 0, 0, 0⟩) :
    generate_irregular_waves gs 1 ls t sp (some p) rng off
      = some (gridOf (linspace 0 (2 * π) gs) (linspace 0 (2 * π) gs)
            (fun xv _ => Real.sin xv), p, off) := by
  rw [generate_eq, show (some p).getD emptyParams = p from rfl,
    fold_nonzero (linspace 0 (2 * π) gs) (linspace 0 (2 * π) gs) ls t sp rng
      ht p (fun _ => ⟨1, wl, 1, 0, 0, 0⟩) (fun _ _ => 0) off 1
      (fun i hi => by
        have h0 : i = 0 := by omega
        rw [h0, hp])]
  have hE : gridOf (linspace 0 (2 * π) gs) (linspace 0 (2 * π) gs)
      (fun x y => 0 + ∑ i ∈ Finset.range 1,
        sinTerm (⟨1, wl, 1, 0, 0, 0⟩ : WaveComponent) t x y)
    = gridOf (linspace 0 (2 * π) gs) (linspace 0 (2 * π) gs)
      (fun xv _ => Real.sin xv) :=
    gridOf_congr _ _ (fun x y => by
      simp only [Finset.sum_range_one, sinTerm, zero_add, one_mul, zero_mul,
        mul_zero, add_zero, sub_zero])
  rw [hE]

/-- Witness for C7 at `t = 1`, `grid_size = 1`. -/
theorem C7_superposition_single_wave_witness :
    generate_irregular_waves 1 1 1 1 1 (some pSin) zeroStream 0
      = some (gridOf (linspace 0 (2 * π) 1) (linspace 0 (2 * π) 1)
            (fun xv _ => Real.sin xv), pSin, 0) :=
  C7_superposition_single_wave 1 1 1 1 1 pSin zeroStream 0 one_ne_zero rfl

/-- Counterexample to C7 as stated ("at any time"): at `time = 0` the same
call regenerates random parameters and, under the stream `rngC` (all drawn
quantities finite, so double and real arithmetic agree exactly), returns
the field `[[1/20]]`, not the broadcast `sin(x)` field `[[sin 0]]`. -/
theorem C7_counterexample_time_zero :
    generate_irregular_waves 1 1 1 0 1 (some pSin) rngC 0
        = some ([[(1 : ℝ) / 20]], pC1, 5) ∧
    gridOf (linspace 0 (2 * π) 1) (linspace 0 (2 * π) 1)
        (fun xv _ => Real.sin xv) = [[Real.sin 0]] ∧
    ([[(1 : ℝ) / 20]] : List (List ℝ)) ≠ [[Real.sin 0]] := by
  refine ⟨gen_zero_rngC_first, by rw [linspace_one, gridOf_single], ?_⟩
  simp only [Real.sin_zero, ne_eq, List.cons.injEq, and_true]
  norm_num

/-- Claim C8: whenever the call returns a height field, that field is a
`grid_size × grid_size` array, regardless of `num_waves`, `time` and the
accepted `wave_params`. -/
theorem C8_shape_invariant (gs n : ℕ) (ls t sp : ℝ) (wp : Option WaveParams)
    (rng : ℕ → ℝ) (off : ℕ) (hgs : 0 < gs) (eta : List (List ℝ))
    (p : WaveParams) (off2 : ℕ)
    (h : generate_irregular_waves gs n ls t sp wp rng off
      = some (eta, p, off2)) :
    eta.length = gs ∧ ∀ row ∈ eta, row.length = gs := by
  rw [generate_eq] at h
  by_cases ht : t = 0
  · subst ht
    rw [fold_zero] at h
    simp only [Option.some.injEq, Prod.mk.injEq] at h
    obtain ⟨he, -, -⟩ := h
    rw [← he]
    refine ⟨by rw [gridOf_length, linspace_length], fun row hrow => ?_⟩
    rw [gridOf_row_length _ _ _ row hrow, linspace_length]
  · obtain ⟨E', hst⟩ := fold_nonzero_inv (linspace 0 (2 * π) gs)
      (linspace 0 (2 * π) gs) ls t sp rng ht (List.range n) (fun _ _ => 0)
      (wp.getD emptyParams) off _ h
    simp only [Prod.mk.injEq] at hst
    obtain ⟨he, -, -⟩ := hst
    rw [he]
    refine ⟨by rw [gridOf_length, linspace_length], fun row hrow => ?_⟩
    rw [gridOf_row_length _ _ _ row hrow, linspace_length]

/-- Witness for C8 on a successful `1 × 1` call. -/
theorem C8_shape_invariant_witness : etaOne.length = 1 :=
  (C8_shape_invariant 1 1 1 1 1 (some pOne) zeroStream 0 one_pos etaOne
    pOne 0 gen_nonzero_eval).1

/-- Claim C9 (implicit): with `num_waves = 0` the call never raises — even at
`time ≠ 0` with `wave_params` absent — and returns the all-zeros
`grid_size × grid_size` field together with the input mapping (a fresh empty
mapping when the input was absent). -/
theorem C9_zero_waves_total (gs : ℕ) (ls t sp : ℝ) (wp : Option WaveParams)
    (rng : ℕ → ℝ) (off : ℕ) :
    generate_irregular_waves gs 0 ls t sp wp rng off
      = some (zeros gs, wp.getD emptyParams, off) := by
  simp only [generate_irregular_waves, List.range_zero, List.foldlM_nil]
  rfl

end
